import Mathlib

/-!
# SmartAC server core: a shallow embedding

Model of the SmartAC server (`src/unnamed/part_003`, with the legacy variant
`src/server/index.ts` where the two differ): telemetry ingestion, the
append-only per-domain log, the actuation policy, the status registry with
its inactivity timer, and the history query / downsampling engine.

Strings are modelled as lists of characters (`Str`); JavaScript numbers are
modelled exactly: NaN, the two infinities, or a rational value.  Every
numeric operation the server performs (comparison, min/max, subtraction,
division by a positive constant) is exact on IEEE-754 doubles, so the
rational model is faithful on those operations.
-/

namespace SmartAC

/-- Characters of a JavaScript string. -/
abbrev Str := List Char

/-- A JavaScript number: NaN, +Infinity, -Infinity, or a finite value
(exact rational). -/
inductive JSNum where
  | nan
  | posInf
  | negInf
  | num (q : ℚ)
deriving DecidableEq, Repr

/-- JavaScript `isNaN` on a number. -/
def JSNum.isNaNb : JSNum → Bool
  | .nan => true
  | _ => false

/-- JavaScript `<` on numbers: false whenever either side is NaN. -/
def jsLt : JSNum → JSNum → Bool
  | .nan, _ => false
  | _, .nan => false
  | .negInf, .negInf => false
  | .negInf, _ => true
  | _, .negInf => false
  | .posInf, _ => false
  | _, .posInf => true
  | .num a, .num b => a < b

/-- JavaScript `<=` on numbers: false whenever either side is NaN. -/
def jsLe : JSNum → JSNum → Bool
  | .nan, _ => false
  | _, .nan => false
  | .negInf, _ => true
  | _, .negInf => false
  | _, .posInf => true
  | .posInf, _ => false
  | .num a, .num b => a ≤ b

/-- JavaScript `>`. -/
def jsGt (a b : JSNum) : Bool := jsLt b a

/-- JavaScript `>=`. -/
def jsGe (a b : JSNum) : Bool := jsLe b a

/-- JavaScript subtraction, as used for `time - lastTime`. -/
def jsSub : JSNum → JSNum → JSNum
  | .nan, _ => .nan
  | _, .nan => .nan
  | .posInf, .posInf => .nan
  | .posInf, _ => .posInf
  | .negInf, .negInf => .nan
  | .negInf, _ => .negInf
  | .num _, .posInf => .negInf
  | .num _, .negInf => .posInf
  | .num a, .num b => .num (a - b)

/-- Maximum of two rationals, by the decidable order (kernel-computable). -/
def qmax (a b : ℚ) : ℚ := if a ≤ b then b else a

/-- Minimum of two rationals, by the decidable order (kernel-computable). -/
def qmin (a b : ℚ) : ℚ := if a ≤ b then a else b

/-- JavaScript `Math.max`: NaN if either argument is NaN. -/
def jsMax : JSNum → JSNum → JSNum
  | .nan, _ => .nan
  | _, .nan => .nan
  | .posInf, _ => .posInf
  | _, .posInf => .posInf
  | .negInf, b => b
  | a, .negInf => a
  | .num a, .num b => .num (qmax a b)

/-- JavaScript `Math.min`: NaN if either argument is NaN. -/
def jsMin : JSNum → JSNum → JSNum
  | .nan, _ => .nan
  | _, .nan => .nan
  | .negInf, _ => .negInf
  | _, .negInf => .negInf
  | .posInf, b => b
  | a, .posInf => a
  | .num a, .num b => .num (qmin a b)

/-- Division by a positive rational constant (the server divides only by
`1000` and by `maxPopulation = 2`). -/
def jsDivPos : JSNum → ℚ → JSNum
  | .nan, _ => .nan
  | .posInf, _ => .posInf
  | .negInf, _ => .negInf
  | .num a, c => .num (a / c)

/-- `populationToFanPower` from `src/unnamed/part_003` (identical in
`src/server/index.ts`): preserve NaN, clamp the population to
`[0, maxPopulation]` with `maxPopulation = 2`, divide by `maxPopulation`. -/
def populationToFanPower (population : JSNum) : JSNum :=
  if population.isNaNb then .nan
  else
    let maxPopulation : ℚ := 2
    let clampedPopulation := jsMin (jsMax population (.num 0)) (.num maxPopulation)
    jsDivPos clampedPopulation maxPopulation

/-! ## Strings, digits and `parseFloat` -/

/-- The decimal digit characters. -/
def digitChar : ℕ → Char
  | 0 => '0' | 1 => '1' | 2 => '2' | 3 => '3' | 4 => '4'
  | 5 => '5' | 6 => '6' | 7 => '7' | 8 => '8' | _ => '9'

/-- Numeric value of a digit character. -/
def charVal (c : Char) : ℕ := c.toNat - 48

/-- Decimal digits of a natural number, most significant first
(JavaScript `Number.prototype.toString` on a nonnegative integer). -/
def natDigits (n : ℕ) : Str :=
  if _h : n < 10 then [digitChar n]
  else natDigits (n / 10) ++ [digitChar (n % 10)]
decreasing_by exact Nat.div_lt_self (by omega) (by omega)

/-- Value of a digit string read left to right, starting from `a`. -/
def digitsValFrom (a : ℕ) (ds : Str) : ℕ := ds.foldl (fun x c => 10 * x + charVal c) a

/-- Value of a digit string. -/
def digitsVal (ds : Str) : ℕ := digitsValFrom 0 ds

/-- JavaScript whitespace test (the characters relevant here). -/
def isWS (c : Char) : Bool := c == ' ' || c == '\t' || c == '\n' || c == '\r'

/-- Split a string into its longest leading run of decimal digits and the
rest. -/
def takeDigits : Str → Str × Str
  | [] => ([], [])
  | c :: cs =>
    if c.isDigit then
      let p := takeDigits cs
      (c :: p.1, p.2)
    else ([], c :: cs)

/-- Strip an optional leading sign, returning the sign as `1` or `-1`. -/
def splitSign : Str → ℚ × Str
  | [] => (1, [])
  | c :: r => if c = '+' then (1, r) else if c = '-' then (-1, r) else (1, c :: r)

/-- Strip an optional fraction part `.digits`, returning the fraction digits
and the rest. -/
def splitFrac : Str → Str × Str
  | [] => ([], [])
  | c :: r => if c = '.' then takeDigits r else ([], c :: r)

/-- Value of an optional exponent part `e[+-]digits` (`0` when absent or when
the exponent has no digits, in which case `parseFloat` stops before it). -/
def expPartVal : Str → ℤ
  | [] => 0
  | c :: r =>
    if c = 'e' ∨ c = 'E' then
      let ep : ℤ × Str :=
        match r with
        | [] => (1, [])
        | d :: r2 => if d = '+' then (1, r2) else if d = '-' then (-1, r2) else (1, d :: r2)
      let eDs := (takeDigits ep.2).1
      if eDs = [] then 0 else ep.1 * (digitsVal eDs : ℤ)
    else 0

/-- The part of `parseFloat` after whitespace and sign handling. -/
def parseNumTail (sgn : ℚ) (s2 : Str) : JSNum :=
  if ("Infinity".data).isPrefixOf s2 then
    (if sgn = 1 then .posInf else .negInf)
  else
    let p1 := takeDigits s2
    let intDs := p1.1
    let p2 := splitFrac p1.2
    let fracDs := p2.1
    if intDs = [] ∧ fracDs = [] then .nan
    else
      let mant : ℚ := (digitsVal intDs : ℚ) + (digitsVal fracDs : ℚ) / 10 ^ fracDs.length
      .num (sgn * mant * (10 : ℚ) ^ expPartVal p2.2)

/-- Model of JavaScript `parseFloat`: longest valid leading decimal literal
(optional sign, `Infinity`, digits with optional fraction and optional
exponent); NaN if the string has no such leading literal. -/
def parseFloatJS (s : Str) : JSNum :=
  let sp := splitSign (s.dropWhile (fun c => isWS c))
  parseNumTail sp.1 sp.2

/-! ### Decimal serialization of finite numbers

The server serializes numbers through `JSON.stringify` and
`Number.prototype.toString`.  Every number the server prints is a finite
IEEE-754 value, i.e. a rational whose denominator has only the prime
factors 2 and 5, so it has an exact finite decimal expansion; the model
prints that exact expansion (using `q.den` decimal places, which is always
enough), and the parse lemmas below show the printed string reads back to
the same value. -/

/-- Zero-pad a digit string on the left to length `k`. -/
def padZeros (k : ℕ) (ds : Str) : Str := List.replicate (k - ds.length) '0' ++ ds

/-- Exact decimal representation of a nonnegative rational whose denominator
divides `10 ^ q.den`. -/
def posDecString (q : ℚ) : Str :=
  if q.den = 1 then natDigits q.num.toNat
  else
    let k := q.den
    let n := q.num.toNat * (10 ^ k / q.den)
    natDigits (n / 10 ^ k) ++ '.' :: padZeros k (natDigits (n % 10 ^ k))

/-- Exact decimal representation of a rational (sign plus `posDecString`). -/
def qToDecString (q : ℚ) : Str :=
  if q < 0 then '-' :: posDecString (-q) else posDecString q

/-! ## IEEE-754 binary32 decode / encode (`readFloatLE` / `writeFloatLE`) -/

/-- Decode 4 bytes (little endian) as an IEEE-754 single-precision value,
exactly (`Buffer.readFloatLE`): sign/exponent/mantissa fields, with
subnormals, infinities and NaN per the standard. -/
def decodeF32 (b0 b1 b2 b3 : ℕ) : JSNum :=
  let bits : ℕ := b0 % 256 + 256 * (b1 % 256) + 65536 * (b2 % 256) + 16777216 * (b3 % 256)
  let s : ℕ := bits / 2 ^ 31
  let e : ℕ := bits / 2 ^ 23 % 256
  let m : ℕ := bits % 2 ^ 23
  if e = 255 then
    if m = 0 then (if s = 1 then .negInf else .posInf) else .nan
  else
    let mag : ℚ :=
      if e = 0 then (m : ℚ) / 2 ^ 23 * ((2 : ℚ) ^ (126 : ℕ))⁻¹
      else ((2 ^ 23 + m : ℕ) : ℚ) / 2 ^ 23 * (2 : ℚ) ^ (e : ℤ) / 2 ^ (127 : ℕ)
    .num ((if s = 1 then -1 else 1) * mag)

/-- Floor of the base-2 logarithm of a positive rational. -/
def floorLog2Q (q : ℚ) : ℤ :=
  if 1 ≤ q then (Nat.log2 q.floor.toNat : ℤ)
  else
    let l := Nat.log2 (1 / q).floor.toNat
    if (2 ^ l : ℚ) * q = 1 then -(l : ℤ) else -(l : ℤ) - 1

/-- Round to the nearest integer, ties to even. -/
def roundHalfEven (q : ℚ) : ℤ :=
  let n := q.floor
  let f := q - n
  if f < 1 / 2 then n
  else if 1 / 2 < f then n + 1
  else if n % 2 = 0 then n else n + 1

/-- Encode a JS number as IEEE-754 binary32 bits (`Buffer.writeFloatLE`):
round to nearest, ties to even; NaN encodes as the canonical quiet NaN. -/
def encodeF32bits (x : JSNum) : ℕ :=
  match x with
  | .nan => 0x7FC00000
  | .posInf => 0x7F800000
  | .negInf => 0xFF800000
  | .num q =>
    if q = 0 then 0
    else
      let s : ℕ := if q < 0 then 1 else 0
      let a : ℚ := if q < 0 then -q else q
      let e : ℤ := floorLog2Q a
      if 127 < e then s * 2 ^ 31 + 255 * 2 ^ 23
      else if -126 ≤ e then
        let m := (roundHalfEven (a * (2 : ℚ) ^ ((23 : ℤ) - e))).toNat
        if 2 ^ 24 ≤ m then
          (if 127 < e + 1 then s * 2 ^ 31 + 255 * 2 ^ 23
           else s * 2 ^ 31 + (e + 1 + 127).toNat * 2 ^ 23)
        else s * 2 ^ 31 + (e + 127).toNat * 2 ^ 23 + (m - 2 ^ 23)
      else
        let m := (roundHalfEven (a * (2 : ℚ) ^ (149 : ℕ))).toNat
        if 2 ^ 23 ≤ m then s * 2 ^ 31 + 1 * 2 ^ 23
        else s * 2 ^ 31 + m

/-- The 4 little-endian bytes written by `Buffer.writeFloatLE`. -/
def encodeF32 (x : JSNum) : List ℕ :=
  let bits := encodeF32bits x
  [bits % 256, bits / 256 % 256, bits / 65536 % 256, bits / 16777216 % 256]

/-! ## Telemetry records, the log line format, and JSON -/

/-- One telemetry record as logged by the server. -/
structure Telemetry where
  temperature : JSNum
  humidity : JSNum
  fan_rpm : JSNum
  population : JSNum
deriving DecidableEq, Repr

/-- `JSON.stringify` of a number: finite values print their exact decimal;
NaN and the infinities print as `null`. -/
def jsonNumStr : JSNum → Str
  | .num q => qToDecString q
  | _ => "null".data

/-- `JSON.stringify({ temperature, humidity, fan_rpm, population })`. -/
def stringifyTelemetry (t : Telemetry) : Str :=
  "\x7b\"temperature\":".data ++ jsonNumStr t.temperature ++
  ",\"humidity\":".data ++ jsonNumStr t.humidity ++
  ",\"fan_rpm\":".data ++ jsonNumStr t.fan_rpm ++
  ",\"population\":".data ++ jsonNumStr t.population ++ "\x7d".data

/-- The log line written by a telemetry post:
`<timestamp_ms>,<json object>` (the trailing newline is added on append). -/
def logLine (ts : ℕ) (t : Telemetry) : Str :=
  natDigits ts ++ ',' :: stringifyTelemetry t

/-- A parsed JSON value of the kinds a log object can contain: a number
literal or `null` (JSON has no NaN or Infinity; `JSON.stringify` writes
`null` for them). -/
inductive JVal where
  | vnull
  | vnum (q : ℚ)
deriving DecidableEq, Repr

/-- The JSON value a number serializes to and back: `null` for NaN and the
infinities, the number itself otherwise. -/
def jvalOfNum : JSNum → JVal
  | .num q => .vnum q
  | _ => .vnull

/-- Interpret one JSON value token (`null` or a number literal); `none` on
anything else (`JSON.parse` would throw). -/
def parseToken (t : Str) : Option JVal :=
  if t = "null".data then some .vnull
  else match parseFloatJS t with
    | .num q => some (.vnum q)
    | _ => none

/-- Split at the first occurrence of `sep`: `(before, some after)`, or
`(s, none)` if `sep` does not occur. -/
def breakAtChar (sep : Char) : Str → Str × Option Str
  | [] => ([], none)
  | c :: cs =>
    if c = sep then ([], some cs)
    else
      let p := breakAtChar sep cs
      (c :: p.1, p.2)

/-- Strip an expected leading sequence, or fail. -/
def stripLead : Str → Str → Option Str
  | [], s => some s
  | _ :: _, [] => none
  | p :: ps, c :: cs => if p = c then stripLead ps cs else none

/-- Decode the JSON object of a log line into its four fields: `JSON.parse`
restricted to the object shape `stringifyTelemetry` produces (this is how
the dashboard's history page reads a line, via
`JSON.parse("[" + line + "]")`). -/
def decodeTelemetryObj (s : Str) : Option (JVal × JVal × JVal × JVal) :=
  match stripLead "\x7b\"temperature\":".data s with
  | none => none
  | some s1 =>
    match breakAtChar ',' s1 with
    | (_, none) => none
    | (t1, some s2) =>
      match stripLead "\"humidity\":".data s2 with
      | none => none
      | some s3 =>
        match breakAtChar ',' s3 with
        | (_, none) => none
        | (t2, some s4) =>
          match stripLead "\"fan_rpm\":".data s4 with
          | none => none
          | some s5 =>
            match breakAtChar ',' s5 with
            | (_, none) => none
            | (t3, some s6) =>
              match stripLead "\"population\":".data s6 with
              | none => none
              | some s7 =>
                match breakAtChar '\x7d' s7 with
                | (_, none) => none
                | (t4, some rest) =>
                  if rest = [] then
                    match parseToken t1, parseToken t2, parseToken t3, parseToken t4 with
                    | some v1, some v2, some v3, some v4 => some (v1, v2, v3, v4)
                    | _, _, _, _ => none
                  else none

/-- Decode a full history line `<ts>,<json>`: timestamp as read by
`parseFloat`, object per `decodeTelemetryObj`. -/
def decodeHistLine (line : Str) : Option (JSNum × (JVal × JVal × JVal × JVal)) :=
  match breakAtChar ',' line with
  | (_, none) => none
  | (tsStr, some rest) =>
    match decodeTelemetryObj rest with
    | none => none
    | some vs => some (parseFloatJS tsStr, vs)

/-! ### JSON round-trip lemmas -/

/-- A finite number printed by the server always reads back exactly; this
predicate captures the (sufficient) representability condition: the
denominator divides `10 ^ den`.  It holds for every IEEE-754 value. -/
def repOK : JSNum → Prop
  | .num q => q.den ∣ 10 ^ q.den
  | _ => True

/-! ## Server state and handlers (`src/unnamed/part_003`) -/

/-- A JSON value stored in the domains map by a detections post: a number,
or some non-numeric JSON value.  A non-numeric population is outside the
numeric model; where the server reads it as a number it is modelled as NaN
(accurate for `null`/`undefined` via `?? NaN` and for non-numeric strings
via `isNaN`). -/
inductive JEntryVal where
  | jnum (x : JSNum)
  | jother
deriving DecidableEq, Repr

/-- A `Status` record (`type Status` in the source): `population` is always
present, the telemetry fields only after a telemetry post. -/
structure StatusRec where
  population : JEntryVal
  fan_power : Option JSNum := none
  temperature : Option JSNum := none
  humidity : Option JSNum := none
  fan_rpm : Option JSNum := none
deriving DecidableEq, Repr

/-- Lookup in an association-list map (JS object / `Map`). -/
def lookupA {α : Type} : List (Str × α) → Str → Option α
  | [], _ => none
  | (k, v) :: m, key => if k = key then some v else lookupA m key

/-- Set a key in an association-list map (JS `Map.prototype.set` /
property assignment). -/
def mapSet {α : Type} (m : List (Str × α)) (k : Str) (v : α) : List (Str × α) :=
  (k, v) :: m.filter (fun p => ¬ p.1 = k)

/-- Substring test (JS `String.prototype.includes`). -/
def containsSub (needle : Str) : Str → Bool
  | [] => needle.isPrefixOf []
  | c :: cs => needle.isPrefixOf (c :: cs) || containsSub needle cs

/-- `normalizeFilenameComponent`: replace every character outside
`[a-zA-Z0-9_-]` with an underscore (the regex `/[^a-z0-9_\-]/gi`). -/
def normalizeFilenameComponent (name : Str) : Str :=
  name.map (fun c => if c.isAlpha || c.isDigit || c = '_' || c = '-' then c else '_')

/-- The per-domain log file name, `domain-<sanitized>.log` (resolved under
the `var` data directory). -/
def logFileName (domain : Str) : Str :=
  "domain-".data ++ normalizeFilenameComponent domain ++ ".log".data

/-- `req.params.domain || "default"`. -/
def domainOrDefault (d : Str) : Str := if d = [] then "default".data else d

/-- `req.body.readFloatLE(off)` on a byte list. -/
def bytesToF32 (body : List ℕ) (off : ℕ) : JSNum :=
  decodeF32 (body.getD off 0) (body.getD (off + 1) 0)
    (body.getD (off + 2) 0) (body.getD (off + 3) 0)

/-- A telemetry request: URL domain, content type, whether the body parsed
as a binary buffer, and the raw bytes. -/
structure UnitReq where
  domain : Str
  contentType : Str
  isBuffer : Bool
  body : List ℕ
deriving DecidableEq, Repr

/-- Response of the telemetry endpoint. -/
inductive UnitResp where
  | okBytes (bytes : List ℕ)
  | badRequest
deriving DecidableEq, Repr

/-- Effects of one telemetry post: the response, the updated status map and
the log append (file name and line, newline added by the append itself). -/
structure UnitOut where
  resp : UnitResp
  status : List (Str × StatusRec)
  logged : Option (Str × Str)
deriving DecidableEq, Repr

/-- The `POST /unit/:domain` handler of `src/unnamed/part_003`. -/
def unitHandler (domains : List (Str × JEntryVal)) (status : List (Str × StatusRec))
    (ts : ℕ) (req : UnitReq) : UnitOut :=
  let domain := domainOrDefault req.domain
  if containsSub "application/octet-stream".data req.contentType = true ∧
      req.isBuffer = true ∧ 12 ≤ req.body.length then
    let temperature := bytesToF32 req.body 0
    let humidity := bytesToF32 req.body 4
    let fan_rpm := bytesToF32 req.body 8
    let population :=
      match lookupA domains domain with
      | some (.jnum x) => x
      | some .jother => .nan
      | none => .nan
    let power := populationToFanPower population
    { resp := .okBytes (encodeF32 power),
      status := mapSet status domain
        { population := .jnum population, fan_power := some power,
          temperature := some temperature, humidity := some humidity,
          fan_rpm := some fan_rpm },
      logged := some (logFileName domain,
        logLine ts ⟨temperature, humidity, fan_rpm, population⟩) }
  else
    { resp := .badRequest, status := status, logged := none }

/-! ### The history endpoint -/

/-- Response of the history endpoint: a client error, or a body with its
content type (`res.json([])` for a missing log sends the JSON text `[]`;
found logs are sent as plain text). -/
inductive HistResp where
  | badRequest (msg : String)
  | ok (contentType : String) (body : Str)
deriving DecidableEq, Repr

/-- JS `String.prototype.split` on a single-character separator. -/
def splitOnChar (sep : Char) : Str → List Str
  | [] => [[]]
  | c :: cs =>
    if c = sep then [] :: splitOnChar sep cs
    else
      match splitOnChar sep cs with
      | [] => [[c]]
      | p :: ps => (c :: p) :: ps

/-- JS `String.prototype.trim` (over the whitespace that can occur here). -/
def trimChars (s : Str) : Str :=
  ((s.dropWhile (fun c => isWS c)).reverse.dropWhile (fun c => isWS c)).reverse

/-- JS `Array.prototype.join` with a one-character separator. -/
def intercalChar (sep : Char) : List Str → Str
  | [] => []
  | [l] => l
  | l :: ls => l ++ sep :: intercalChar sep ls

/-- The time (seconds) the loop computes for a line:
`parseFloat(parts[0]) / 1000`. -/
def timeOf (line : Str) : JSNum :=
  jsDivPos (parseFloatJS ((splitOnChar ',' line).headD [])) 1000

/-- `start !== undefined && time < start`. -/
def startLtB (start : Option JSNum) (time : JSNum) : Bool :=
  match start with
  | some s => jsLt time s
  | none => false

/-- Whether the loop body reaches the first/last tracking for a line: the
line is nonempty, has at least two comma-separated parts, and passes both
range checks (with JS NaN comparison semantics). -/
def lineKept (start : Option JSNum) (e : JSNum) (line : Str) : Bool :=
  if line = [] then false
  else if 2 ≤ (splitOnChar ',' line).length then
    (if startLtB start (timeOf line) then false
     else if jsGt (timeOf line) e then false
     else true)
  else false

/-- The filtering/downsampling loop of `GET /history/:domain`, carrying
`lastTime`, `firstMatchingLine`, `lastMatchingLine` and `result`. -/
def histLoop (start : Option JSNum) (e step : JSNum) :
    List Str → JSNum → Option Str → Option Str → List Str →
    List Str × Option Str × Option Str
  | [], _, first, last, acc => (acc, first, last)
  | l :: ls, lastT, first, last, acc =>
    if lineKept start e l then
      let first1 := match first with | none => some l | some f => some f
      if jsGe (jsSub (timeOf l) lastT) step then
        histLoop start e step ls (timeOf l) first1 (some l) (acc ++ [l])
      else
        histLoop start e step ls lastT first1 (some l) acc
    else histLoop start e step ls lastT first last acc

/-- The final-result assembly: first matching line, downsampled lines that
duplicate neither boundary, then the last matching line if distinct. -/
def assembleHist (r : List Str × Option Str × Option Str) : List Str :=
  let result := r.1
  let first := r.2.1
  let last := r.2.2
  (match first with | some f => [f] | none => []) ++
  result.filter (fun l => decide (¬ first = some l) && decide (¬ last = some l)) ++
  (match last with
   | some l => if first = some l then [] else [l]
   | none => [])

/-- The lines the history endpoint outputs for a list of log lines. -/
def historyLines (start : Option JSNum) (e step : JSNum) (lines : List Str) : List Str :=
  assembleHist (histLoop start e step lines .negInf none none [])

/-- JS truthiness filter for a query parameter: absent or empty means
"not supplied". -/
def qparam : Option Str → Option Str
  | some s => if s = [] then none else some s
  | none => none

/-- The parsed `start` parameter:
`startParam ? parseFloat(startParam) : undefined`. -/
def histStart (startP : Option Str) : Option JSNum :=
  match qparam startP with
  | some s => some (parseFloatJS s)
  | none => none

/-- The parsed `end` parameter, defaulting to `Date.now() / 1000`. -/
def histEnd (endP : Option Str) (now : ℚ) : JSNum :=
  match qparam endP with
  | some s => parseFloatJS s
  | none => .num now

/-- The parsed `step` parameter, defaulting to 60 seconds. -/
def histStep (stepP : Option Str) : JSNum :=
  match qparam stepP with
  | some s => parseFloatJS s
  | none => .num 60

/-- The `GET /history/:domain` handler of `src/unnamed/part_003`.  `fs` maps
a file name to its content when the file exists; `now` is
`Date.now() / 1000`. -/
def historyHandler (fs : Str → Option Str) (domain : Str)
    (startP endP stepP : Option Str) (now : ℚ) : HistResp :=
  let start := histStart startP
  let e := histEnd endP now
  let step := histStep stepP
  if (match start with | some s => s.isNaNb | none => false) then
    .badRequest "Bad Request: invalid start timestamp"
  else if e.isNaNb then
    .badRequest "Bad Request: invalid end timestamp"
  else if step.isNaNb || jsLe step (.num 0) then
    .badRequest "Bad Request: invalid step (must be > 0)"
  else
    match fs (logFileName domain) with
    | none => .ok "application/json" "[]".data
    | some content =>
      .ok "text/plain"
        (intercalChar '\n' (historyLines start e step (splitOnChar '\n' (trimChars content))))

/-- The combined validation predicate: exactly the conditions under which
the handler answers 400. -/
def histValidationFail (startP endP stepP : Option Str) (now : ℚ) : Bool :=
  (match histStart startP with | some s => s.isNaNb | none => false) ||
  (histEnd endP now).isNaNb ||
  ((histStep stepP).isNaNb || jsLe (histStep stepP) (.num 0))

/-! ### Detections, status and the inactivity timer -/

/-- A parsed detections request body. -/
inductive DetBody where
  | notJson
  | nonObject
  | obj (entries : List (Str × JEntryVal))
deriving DecidableEq, Repr

/-- Response of the detections endpoint. -/
inductive DetResp where
  | ok
  | badRequest
deriving DecidableEq, Repr

/-- Per-entry validity in the legacy server:
`typeof count === "number" && count >= 0` (false for NaN). -/
def validCount : JEntryVal → Bool
  | .jnum x => jsGe x (.num 0)
  | .jother => false

/-- The `POST /detections` handler of the legacy server
(`src/server/index.ts`): per-entry validation, invalid entries logged and
skipped, valid entries merged into the map; never removes a domain. -/
def detectionsLegacy (domains : List (Str × JEntryVal)) (body : DetBody) :
    List (Str × JEntryVal) × DetResp :=
  match body with
  | .notJson => (domains, .badRequest)
  | .nonObject => (domains, .badRequest)
  | .obj entries =>
    (entries.foldl (fun m p => if validCount p.2 then mapSet m p.1 p.2 else m) domains, .ok)

/-- The mutable state of the current server (`src/unnamed/part_003`):
domains map, status map, and the pending inactivity-timeout handles
(as a list of ids, so cancellation is observable; `nextId` is fresh). -/
structure SrvState where
  domains : List (Str × JEntryVal)
  status : List (Str × StatusRec)
  timers : List ℕ
  nextId : ℕ
deriving DecidableEq, Repr

/-- `resetDetectionsTimeout`: clear any existing timeout, then schedule a
fresh one. -/
def resetDetectionsTimeout (s : SrvState) : SrvState :=
  { s with timers := [s.nextId], nextId := s.nextId + 1 }

/-- The timeout callback: clear the domains and status maps and drop the
handle. -/
def fireDetectionsTimeout (s : SrvState) : SrvState :=
  { s with domains := [], status := [], timers := [] }

/-- The `POST /detections` handler of `src/unnamed/part_003`: wholesale
replacement of the domains map (no per-entry validation), removal of status
entries whose domain is absent from the new payload, timer reset. -/
def detectionsCurrent (s : SrvState) (body : DetBody) : SrvState × DetResp :=
  match body with
  | .notJson => (s, .badRequest)
  | .nonObject => (s, .badRequest)
  | .obj entries =>
    let s1 := { s with
      domains := entries
      status := s.status.filter (fun p => (lookupA entries p.1).isSome) }
    (resetDetectionsTimeout s1, .ok)

/-- The `GET /status` handler: one record per domain of the domains map,
the stored status if present, else population only. -/
def statusHandler (s : SrvState) : List (Str × StatusRec) :=
  s.domains.map (fun p =>
    (p.1, match lookupA s.status p.1 with
      | some st => st
      | none => { population := p.2 }))

/-! ### The downsampling loop, restated declaratively -/

/-- The matching lines (those the loop tracks), in file order. -/
def matchingLines (start : Option JSNum) (e : JSNum) (lines : List Str) : List Str :=
  lines.filter (lineKept start e)

/-- The downsampling rule: include a line when its time is at least `step`
after the last included time. -/
def stepSelect (step : JSNum) : JSNum → List Str → List Str
  | _, [] => []
  | lastT, l :: ls =>
    if jsGe (jsSub (timeOf l) lastT) step then l :: stepSelect step (timeOf l) ls
    else stepSelect step lastT ls

/-- First tracked line: the previously tracked one if any, else the head. -/
def firstOr (o : Option Str) (ms : List Str) : Option Str :=
  match o with
  | some f => some f
  | none => ms.head?

/-- Last tracked line: the last of `ms` if any, else the previous one. -/
def lastOr (o : Option Str) (ms : List Str) : Option Str :=
  match ms.getLast? with
  | some l => some l
  | none => o

/-! ## Lemmas and claim theorems -/

/-- C2: `populationToFanPower` maps every finite value into `[0,1]`,
propagates NaN, and takes the stated values at `0`, `2`, `5` and `-1`. -/
theorem populationToFanPower_spec :
    (∀ q : ℚ, ∃ r : ℚ, populationToFanPower (.num q) = .num r ∧ 0 ≤ r ∧ r ≤ 1) ∧
    populationToFanPower .nan = .nan ∧
    populationToFanPower (.num 0) = .num 0 ∧
    populationToFanPower (.num 2) = .num 1 ∧
    populationToFanPower (.num 5) = .num 1 ∧
    populationToFanPower (.num (-1)) = .num 0 := by
  constructor
  · intro q
    refine ⟨qmin (qmax q 0) 2 / 2, rfl, ?_, ?_⟩ <;>
      · unfold qmin qmax
        split_ifs <;> linarith
  refine ⟨rfl, ?_, ?_, ?_, ?_⟩ <;>
    norm_num [populationToFanPower, jsMin, jsMax, jsDivPos, JSNum.isNaNb, qmin, qmax]

/-! ### Digit-string lemmas -/

theorem digitChar_isDigit (d : ℕ) : (digitChar d).isDigit = true := by
  unfold digitChar; split <;> decide

theorem charVal_digitChar {d : ℕ} (h : d < 10) : charVal (digitChar d) = d := by
  interval_cases d <;> decide

theorem digitsValFrom_append (a : ℕ) (ds es : Str) :
    digitsValFrom a (ds ++ es) = digitsValFrom (digitsValFrom a ds) es := by
  simp [digitsValFrom, List.foldl_append]

theorem digitsValFrom_natDigits (a n : ℕ) :
    digitsValFrom a (natDigits n) = a * 10 ^ (natDigits n).length + n := by
  induction n using Nat.strong_induction_on generalizing a with
  | _ n ih =>
    by_cases h : n < 10
    · rw [natDigits, dif_pos h]
      simp only [digitsValFrom, List.foldl_cons, List.foldl_nil, List.length_singleton,
        pow_one, charVal_digitChar h]
      omega
    · rw [natDigits, dif_neg h, digitsValFrom_append,
        ih (n / 10) (Nat.div_lt_self (by omega) (by omega))]
      simp only [digitsValFrom, List.foldl_cons, List.foldl_nil, List.length_append,
        List.length_singleton, charVal_digitChar (Nat.mod_lt n (by omega)), pow_succ,
        ← mul_assoc]
      generalize a * 10 ^ (natDigits (n / 10)).length = P
      omega

theorem digitsVal_natDigits (n : ℕ) : digitsVal (natDigits n) = n := by
  simpa [digitsVal] using digitsValFrom_natDigits 0 n

theorem natDigits_isDigit (n : ℕ) : ∀ c ∈ natDigits n, c.isDigit = true := by
  induction n using Nat.strong_induction_on with
  | _ n ih =>
    by_cases h : n < 10
    · rw [natDigits, dif_pos h]
      intro c hc
      simp only [List.mem_singleton] at hc
      subst hc
      exact digitChar_isDigit n
    · rw [natDigits, dif_neg h]
      intro c hc
      rcases List.mem_append.1 hc with h1 | h2
      · exact ih (n / 10) (Nat.div_lt_self (by omega) (by omega)) c h1
      · simp only [List.mem_singleton] at h2
        subst h2
        exact digitChar_isDigit _

theorem natDigits_ne_nil (n : ℕ) : natDigits n ≠ [] := by
  rw [natDigits]; split <;> simp

theorem natDigits_length_le {n k : ℕ} (hk : 1 ≤ k) (h : n < 10 ^ k) :
    (natDigits n).length ≤ k := by
  induction n using Nat.strong_induction_on generalizing k with
  | _ n ih =>
    by_cases hn : n < 10
    · rw [natDigits, dif_pos hn]; simpa using hk
    · rw [natDigits, dif_neg hn]
      have hk2 : 2 ≤ k := by
        rcases Nat.lt_or_ge k 2 with hlt | hge
        · exfalso
          have : k = 1 := by omega
          subst this
          simp at h
          omega
        · exact hge
      have hdiv : n / 10 < 10 ^ (k - 1) := by
        have hlt : n < 10 ^ (k - 1) * 10 := by
          have hexp : k - 1 + 1 = k := by omega
          calc n < 10 ^ k := h
          _ = 10 ^ (k - 1) * 10 := by rw [← pow_succ, hexp]
        omega
      have ihl := ih (n / 10) (Nat.div_lt_self (by omega) (by omega)) (by omega : 1 ≤ k - 1) hdiv
      simp only [List.length_append, List.length_singleton]
      omega

theorem takeDigits_append {ds r : Str} (hds : ∀ c ∈ ds, c.isDigit = true)
    (hr : ∀ c cs, r = c :: cs → c.isDigit = false) :
    takeDigits (ds ++ r) = (ds, r) := by
  induction ds with
  | nil =>
    cases r with
    | nil => rfl
    | cons c cs => simp [takeDigits, hr c cs rfl]
  | cons c cs ih =>
    have hd := hds c (by simp)
    simp [takeDigits, hd, ih (fun x hx => hds x (by simp [hx]))]

/-- A digit character is none of the special characters the parsers and
serializers branch on, and is not whitespace. -/
theorem isDigit_ne {c : Char} (h : c.isDigit = true) :
    c ≠ '+' ∧ c ≠ '-' ∧ c ≠ '.' ∧ c ≠ 'e' ∧ c ≠ 'E' ∧ c ≠ 'I' ∧ c ≠ ',' ∧
      c ≠ '\n' ∧ c ≠ '\x7d' ∧ isWS c = false := by
  refine ⟨?_, ?_, ?_, ?_, ?_, ?_, ?_, ?_, ?_, ?_⟩
  case _ => rintro rfl; exact absurd h (by decide)
  case _ => rintro rfl; exact absurd h (by decide)
  case _ => rintro rfl; exact absurd h (by decide)
  case _ => rintro rfl; exact absurd h (by decide)
  case _ => rintro rfl; exact absurd h (by decide)
  case _ => rintro rfl; exact absurd h (by decide)
  case _ => rintro rfl; exact absurd h (by decide)
  case _ => rintro rfl; exact absurd h (by decide)
  case _ => rintro rfl; exact absurd h (by decide)
  case _ =>
    simp only [isWS, Bool.or_eq_false_iff, beq_eq_false_iff_ne, ne_eq]
    refine ⟨⟨⟨?_, ?_⟩, ?_⟩, ?_⟩ <;> rintro rfl <;> exact absurd h (by decide)

theorem digitsValFrom_replicate_zero (j : ℕ) :
    digitsValFrom 0 (List.replicate j '0') = 0 := by
  induction j with
  | zero => rfl
  | succ j ih => simpa [digitsValFrom, List.replicate_succ, charVal] using ih

theorem digitsVal_padZeros (k : ℕ) (ds : Str) :
    digitsVal (padZeros k ds) = digitsVal ds := by
  simp [digitsVal, padZeros, digitsValFrom_append, digitsValFrom_replicate_zero]

theorem padZeros_length {k : ℕ} {ds : Str} (h : ds.length ≤ k) :
    (padZeros k ds).length = k := by
  simp [padZeros]
  omega

theorem padZeros_isDigit {k : ℕ} {ds : Str} (h : ∀ c ∈ ds, c.isDigit = true) :
    ∀ c ∈ padZeros k ds, c.isDigit = true := by
  intro c hc
  rcases List.mem_append.1 hc with h1 | h2
  · have : c = '0' := List.eq_of_mem_replicate h1
    subst this
    decide
  · exact h c h2

/-- `parseNumTail` on a pure digit string. -/
theorem parseNumTail_digits (sgn : ℚ) (I : Str) (hI : ∀ c ∈ I, c.isDigit = true)
    (hne : I ≠ []) : parseNumTail sgn I = .num (sgn * digitsVal I) := by
  cases I with
  | nil => exact absurd rfl hne
  | cons c cs =>
    have hc := hI c (by simp)
    have hn := isDigit_ne hc
    have hInf : (("Infinity".data).isPrefixOf (c :: cs)) = false := by
      have : ("Infinity".data) = 'I' :: "nfinity".data := rfl
      rw [this]
      simp [List.isPrefixOf]
      intro h
      exact absurd h.symm hn.2.2.2.2.2.1
    have htd : takeDigits ((c :: cs) ++ []) = (c :: cs, []) :=
      takeDigits_append hI (by intro x xs hx; cases hx)
    rw [List.append_nil] at htd
    simp only [parseNumTail, hInf, Bool.false_eq_true, if_false, htd, splitFrac]
    simp [expPartVal, digitsVal, digitsValFrom]

/-- `parseNumTail` on `digits.digits`. -/
theorem parseNumTail_intFrac (sgn : ℚ) (I F : Str) (hI : ∀ c ∈ I, c.isDigit = true)
    (hF : ∀ c ∈ F, c.isDigit = true) (hne : I ≠ []) :
    parseNumTail sgn (I ++ '.' :: F) =
      .num (sgn * ((digitsVal I : ℚ) + (digitsVal F : ℚ) / 10 ^ F.length)) := by
  cases I with
  | nil => exact absurd rfl hne
  | cons c cs =>
    have hc := hI c (by simp)
    have hn := isDigit_ne hc
    have hInf : (("Infinity".data).isPrefixOf ((c :: cs) ++ '.' :: F)) = false := by
      have : ("Infinity".data) = 'I' :: "nfinity".data := rfl
      rw [this]
      simp [List.isPrefixOf]
      intro h
      exact absurd h.symm hn.2.2.2.2.2.1
    have htd : takeDigits ((c :: cs) ++ '.' :: F) = (c :: cs, '.' :: F) :=
      takeDigits_append hI (by intro x xs hx; cases hx; decide)
    have htdF : takeDigits (F ++ []) = (F, []) :=
      takeDigits_append hF (by intro x xs hx; cases hx)
    rw [List.append_nil] at htdF
    simp only [parseNumTail, hInf, Bool.false_eq_true, if_false, htd, splitFrac,
      if_pos rfl, htdF]
    simp [expPartVal]

/-- Characters of `posDecString` are digits or the decimal point. -/
theorem posDecString_chars (q : ℚ) : ∀ c ∈ posDecString q, c.isDigit = true ∨ c = '.' := by
  unfold posDecString
  split
  · intro c hc
    exact Or.inl (natDigits_isDigit _ c hc)
  · intro c hc
    rcases List.mem_append.1 hc with h1 | h2
    · exact Or.inl (natDigits_isDigit _ c h1)
    · rcases List.mem_cons.1 h2 with h3 | h4
      · exact Or.inr h3
      · exact Or.inl (padZeros_isDigit (natDigits_isDigit _) c h4)

/-- Characters of `qToDecString` are digits, the point, or a minus sign. -/
theorem qToDecString_chars (q : ℚ) :
    ∀ c ∈ qToDecString q, c.isDigit = true ∨ c = '.' ∨ c = '-' := by
  unfold qToDecString
  split
  · intro c hc
    rcases List.mem_cons.1 hc with h1 | h2
    · exact Or.inr (Or.inr h1)
    · rcases posDecString_chars _ c h2 with h | h
      · exact Or.inl h
      · exact Or.inr (Or.inl h)
  · intro c hc
    rcases posDecString_chars _ c hc with h | h
    · exact Or.inl h
    · exact Or.inr (Or.inl h)

/-- `posDecString` of a nonnegative representable rational starts with a
digit and `parseNumTail` reads it back to the exact value. -/
theorem posDecString_spec {q : ℚ} (h0 : 0 ≤ q) (hden : q.den ∣ 10 ^ q.den) :
    (∃ c cs, posDecString q = c :: cs ∧ c.isDigit = true) ∧
    ∀ sgn : ℚ, parseNumTail sgn (posDecString q) = .num (sgn * q) := by
  by_cases hd1 : q.den = 1
  · have h2 : ((q.num.toNat : ℕ) : ℤ) = q.num := Int.toNat_of_nonneg (Rat.num_nonneg.mpr h0)
    have h1 : ((q.num.toNat : ℕ) : ℚ) = q := by
      have hq : (q.num : ℚ) = q := by
        rw [← Rat.num_div_den q, hd1]
        simp
      rw [← hq]
      exact_mod_cast congrArg (fun z : ℤ => (z : ℚ)) h2
    rw [posDecString, if_pos hd1]
    constructor
    · cases hnd : natDigits q.num.toNat with
      | nil => exact absurd hnd (natDigits_ne_nil _)
      | cons c cs =>
        exact ⟨c, cs, rfl, natDigits_isDigit _ c (by rw [hnd]; simp)⟩
    · intro sgn
      rw [parseNumTail_digits sgn _ (natDigits_isDigit _) (natDigits_ne_nil _),
        digitsVal_natDigits, h1]
  · have hkpos : 0 < q.den := q.pos
    simp only [posDecString, if_neg hd1]
    generalize hN : q.num.toNat * (10 ^ q.den / q.den) = n
    have hpow : 0 < 10 ^ q.den := by positivity
    have key : ((n : ℕ) : ℚ) = q * 10 ^ q.den := by
      have hnum : ((q.num.toNat : ℕ) : ℚ) = (q.num : ℚ) := by
        exact_mod_cast congrArg (fun z : ℤ => (z : ℚ))
          (Int.toNat_of_nonneg (Rat.num_nonneg.mpr h0))
      have hdiv : ((10 ^ q.den / q.den : ℕ) : ℚ) = (10 ^ q.den : ℚ) / (q.den : ℚ) := by
        rw [Nat.cast_div hden (by positivity)]
        norm_cast
      calc ((n : ℕ) : ℚ)
          = ((q.num.toNat : ℕ) : ℚ) * ((10 ^ q.den / q.den : ℕ) : ℚ) := by
            rw [← hN]; push_cast; ring
        _ = (q.num : ℚ) * ((10 ^ q.den : ℚ) / (q.den : ℚ)) := by rw [hnum, hdiv]
        _ = ((q.num : ℚ) / (q.den : ℚ)) * 10 ^ q.den := by ring
        _ = q * 10 ^ q.den := by rw [Rat.num_div_den]
    have hFlen : (natDigits (n % 10 ^ q.den)).length ≤ q.den :=
      natDigits_length_le (by omega) (Nat.mod_lt _ hpow)
    constructor
    · cases hnd : natDigits (n / 10 ^ q.den) with
      | nil => exact absurd hnd (natDigits_ne_nil _)
      | cons c cs =>
        refine ⟨c, cs ++ '.' :: padZeros q.den (natDigits (n % 10 ^ q.den)), rfl,
          natDigits_isDigit _ c (by rw [hnd]; simp)⟩
    · intro sgn
      rw [parseNumTail_intFrac sgn _ _ (natDigits_isDigit _)
        (padZeros_isDigit (natDigits_isDigit _)) (natDigits_ne_nil _)]
      congr 1
      rw [digitsVal_natDigits, digitsVal_padZeros, digitsVal_natDigits,
        padZeros_length hFlen]
      have hnm : 10 ^ q.den * (n / 10 ^ q.den) + n % 10 ^ q.den = n :=
        Nat.div_add_mod n (10 ^ q.den)
      have hcast : (10 : ℚ) ^ q.den * ((n / 10 ^ q.den : ℕ) : ℚ) +
          ((n % 10 ^ q.den : ℕ) : ℚ) = ((n : ℕ) : ℚ) := by
        exact_mod_cast congrArg (fun m : ℕ => (m : ℚ)) hnm
      have hval : ((n / 10 ^ q.den : ℕ) : ℚ) +
          ((n % 10 ^ q.den : ℕ) : ℚ) / 10 ^ q.den = q := by
        have h10 : (10 : ℚ) ^ q.den ≠ 0 := by positivity
        field_simp
        linarith [hcast, key]
      rw [hval]

/-- Main serialization round trip: `parseFloat` of the printed decimal of a
representable rational recovers the rational exactly. -/
theorem parseFloatJS_qToDecString {q : ℚ} (hden : q.den ∣ 10 ^ q.den) :
    parseFloatJS (qToDecString q) = .num q := by
  by_cases hq : q < 0
  · rw [qToDecString, if_pos hq]
    have h0 : 0 ≤ -q := by linarith
    have hd : (-q).den ∣ 10 ^ (-q).den := by
      rw [Rat.neg_den]
      exact hden
    obtain ⟨⟨c, cs, hcons, hcdig⟩, hparse⟩ := posDecString_spec h0 hd
    have hp := hparse (-1)
    rw [hcons] at hp ⊢
    unfold parseFloatJS
    have hwsneg : isWS '-' = false := by decide
    have hws : List.dropWhile (fun c => isWS c) ('-' :: c :: cs) = '-' :: c :: cs := by
      rw [List.dropWhile_cons]
      simp [hwsneg]
    rw [hws]
    have hsgn : splitSign ('-' :: c :: cs) = (-1, c :: cs) := by
      simp only [splitSign]
      simp
    rw [hsgn]
    rw [hp]
    norm_num
  · rw [qToDecString, if_neg hq]
    have h0 : 0 ≤ q := le_of_not_lt hq
    obtain ⟨⟨c, cs, hcons, hcdig⟩, hparse⟩ := posDecString_spec h0 hden
    have hp := hparse 1
    rw [hcons] at hp ⊢
    have hn := isDigit_ne hcdig
    unfold parseFloatJS
    have hws : List.dropWhile (fun c => isWS c) (c :: cs) = c :: cs := by
      rw [List.dropWhile_cons]
      simp [hn.2.2.2.2.2.2.2.2.2]
    rw [hws]
    have hsgn : splitSign (c :: cs) = (1, c :: cs) := by
      simp only [splitSign]
      rw [if_neg hn.1, if_neg hn.2.1]
    rw [hsgn]
    rw [hp]
    norm_num

theorem encodeF32_length (x : JSNum) : (encodeF32 x).length = 4 := rfl

theorem den_div_pow_dvd (z : ℤ) (k : ℕ) : ((z : ℚ) / 2 ^ k).den ∣ 2 ^ k := by
  have h : (z : ℚ) / 2 ^ k = Rat.divInt z ((2 : ℤ) ^ k) := by
    rw [Rat.divInt_eq_div]
    push_cast
    ring
  rw [h]
  have hd := Rat.den_dvd z ((2 : ℤ) ^ k)
  have h2 : ((2 : ℤ) ^ k) = (((2 ^ k : ℕ) : ℤ)) := by push_cast; ring
  rw [h2] at hd
  exact_mod_cast hd

theorem den_two_pow_repOK {q : ℚ} (k : ℕ) (h : q.den ∣ 2 ^ k) :
    q.den ∣ 10 ^ q.den := by
  obtain ⟨j, _hj, hd⟩ := (Nat.dvd_prime_pow Nat.prime_two).1 h
  rw [hd]
  have hj2 : j ≤ 2 ^ j := le_of_lt (Nat.lt_two_pow j)
  exact dvd_trans (pow_dvd_pow 2 hj2) (pow_dvd_pow_of_dvd (by norm_num) _)

/-- Every value decoded from binary32 bytes is representable. -/
theorem decodeF32_repOK (b0 b1 b2 b3 : ℕ) : repOK (decodeF32 b0 b1 b2 b3) := by
  simp only [decodeF32]
  split
  · split
    · split <;> trivial
    · trivial
  · rename_i hesplit
    set bits : ℕ := b0 % 256 + 256 * (b1 % 256) + 65536 * (b2 % 256) + 16777216 * (b3 % 256)
      with hbits
    set e : ℕ := bits / 2 ^ 23 % 256 with he
    set m : ℕ := bits % 2 ^ 23 with hm
    have hmag : ∀ mag : ℚ, mag.den ∣ 2 ^ 150 →
        repOK (.num ((if bits / 2 ^ 31 = 1 then (-1 : ℚ) else 1) * mag)) := by
      intro mag hdvd
      have hden : ((if bits / 2 ^ 31 = 1 then (-1 : ℚ) else 1) * mag).den ∣ 2 ^ 150 := by
        split
        · rw [neg_one_mul, Rat.neg_den]
          exact hdvd
        · rw [one_mul]
          exact hdvd
      exact den_two_pow_repOK 150 hden
    refine hmag _ ?_
    split
    · rename_i he0
      have hval : (m : ℚ) / 2 ^ 23 * ((2 : ℚ) ^ (126 : ℕ))⁻¹ = ((m : ℤ) : ℚ) / 2 ^ 149 := by
        push_cast
        rw [← div_eq_mul_inv, div_div, ← pow_add]
      rw [hval]
      exact dvd_trans (den_div_pow_dvd (m : ℤ) 149) (pow_dvd_pow 2 (by norm_num))
    · rename_i he0
      have hval : ((2 ^ 23 + m : ℕ) : ℚ) / 2 ^ 23 * (2 : ℚ) ^ (e : ℤ) / 2 ^ (127 : ℕ) =
          (((2 ^ 23 + m : ℕ) : ℤ) * 2 ^ e : ℤ) / 2 ^ 150 := by
        rw [zpow_natCast]
        push_cast
        field_simp
        ring
      rw [hval]
      exact den_div_pow_dvd _ 150

/-- Tokens printed for a number contain none of the structural characters of
the log format. -/
theorem null_token_no_special :
    ∀ c ∈ ("null".data : Str), ¬ c = ',' ∧ ¬ c = '\x7d' ∧ ¬ c = '\n' := by decide

theorem jsonNumStr_no_special (x : JSNum) :
    ∀ c ∈ jsonNumStr x, ¬ c = ',' ∧ ¬ c = '\x7d' ∧ ¬ c = '\n' := by
  intro c hc
  match x with
  | .num q =>
    rcases qToDecString_chars q c hc with h | h | h
    · have hn := isDigit_ne h
      exact ⟨hn.2.2.2.2.2.2.1, hn.2.2.2.2.2.2.2.2.1, hn.2.2.2.2.2.2.2.1⟩
    · subst h; refine ⟨by decide, by decide, by decide⟩
    · subst h; refine ⟨by decide, by decide, by decide⟩
  | .nan => exact null_token_no_special c hc
  | .posInf => exact null_token_no_special c hc
  | .negInf => exact null_token_no_special c hc

/-- A printed number token reads back as the corresponding JSON value. -/
theorem parseToken_jsonNumStr (x : JSNum) (h : repOK x) :
    parseToken (jsonNumStr x) = some (jvalOfNum x) := by
  match x with
  | .num q =>
    have hne : ¬ qToDecString q = "null".data := by
      intro hq
      have hmem : 'n' ∈ qToDecString q := by
        rw [hq]; decide
      rcases qToDecString_chars q 'n' hmem with h | h | h
      · exact absurd h (by decide)
      · exact absurd h (by decide)
      · exact absurd h (by decide)
    simp only [jsonNumStr, parseToken, if_neg hne]
    rw [parseFloatJS_qToDecString h]
    rfl
  | .nan => rfl
  | .posInf => rfl
  | .negInf => rfl

theorem breakAtChar_append {sep : Char} {a : Str} (h : ∀ c ∈ a, ¬ c = sep) (b : Str) :
    breakAtChar sep (a ++ sep :: b) = (a, some b) := by
  induction a with
  | nil => simp [breakAtChar]
  | cons c cs ih =>
    have hc := h c (by simp)
    simp [breakAtChar, hc, ih (fun x hx => h x (by simp [hx]))]

theorem stripLead_append (pre rest : Str) : stripLead pre (pre ++ rest) = some rest := by
  induction pre with
  | nil => rfl
  | cons p ps ih => simp [stripLead, ih]

/-- `parseFloat` of a printed natural number (as used for the leading
timestamp of a log line). -/
theorem parseFloatJS_natDigits (n : ℕ) : parseFloatJS (natDigits n) = .num n := by
  cases hnd : natDigits n with
  | nil => exact absurd hnd (natDigits_ne_nil n)
  | cons c cs =>
    have hdig : ∀ x ∈ c :: cs, x.isDigit = true := by
      rw [← hnd]
      exact natDigits_isDigit n
    have hc := hdig c (by simp)
    have hn := isDigit_ne hc
    unfold parseFloatJS
    have hws : List.dropWhile (fun c => isWS c) (c :: cs) = c :: cs := by
      rw [List.dropWhile_cons]
      simp [hn.2.2.2.2.2.2.2.2.2]
    rw [hws]
    have hsgn : splitSign (c :: cs) = (1, c :: cs) := by
      simp only [splitSign]
      rw [if_neg hn.1, if_neg hn.2.1]
    rw [hsgn, parseNumTail_digits 1 (c :: cs) hdig (by simp)]
    rw [← hnd, digitsVal_natDigits]
    norm_num

/-- Decoding the stringified record recovers the four values: finite numbers
exactly, NaN and the infinities as JSON `null`. -/
theorem decodeTelemetryObj_stringify (t : Telemetry)
    (h1 : repOK t.temperature) (h2 : repOK t.humidity)
    (h3 : repOK t.fan_rpm) (h4 : repOK t.population) :
    decodeTelemetryObj (stringifyTelemetry t) =
      some (jvalOfNum t.temperature, jvalOfNum t.humidity,
        jvalOfNum t.fan_rpm, jvalOfNum t.population) := by
  have ht1 : ∀ c ∈ jsonNumStr t.temperature, ¬ c = ',' :=
    fun c hc => (jsonNumStr_no_special _ c hc).1
  have ht2 : ∀ c ∈ jsonNumStr t.humidity, ¬ c = ',' :=
    fun c hc => (jsonNumStr_no_special _ c hc).1
  have ht3 : ∀ c ∈ jsonNumStr t.fan_rpm, ¬ c = ',' :=
    fun c hc => (jsonNumStr_no_special _ c hc).1
  have ht4 : ∀ c ∈ jsonNumStr t.population, ¬ c = '\x7d' :=
    fun c hc => (jsonNumStr_no_special _ c hc).2.1
  simp [stringifyTelemetry, decodeTelemetryObj, List.append_assoc, stripLead,
    breakAtChar_append ht1, breakAtChar_append ht2,
    breakAtChar_append ht3, breakAtChar_append ht4,
    parseToken_jsonNumStr _ h1, parseToken_jsonNumStr _ h2,
    parseToken_jsonNumStr _ h3, parseToken_jsonNumStr _ h4]

/-- Full round trip for one log line: `<ts>,<json>` decodes to the
timestamp and the four recorded values. -/
theorem decodeHistLine_logLine (ts : ℕ) (t : Telemetry)
    (h1 : repOK t.temperature) (h2 : repOK t.humidity)
    (h3 : repOK t.fan_rpm) (h4 : repOK t.population) :
    decodeHistLine (logLine ts t) =
      some (.num ts, (jvalOfNum t.temperature, jvalOfNum t.humidity,
        jvalOfNum t.fan_rpm, jvalOfNum t.population)) := by
  have hts : ∀ c ∈ natDigits ts, ¬ c = ',' :=
    fun c hc => (isDigit_ne (natDigits_isDigit ts c hc)).2.2.2.2.2.2.1
  simp only [decodeHistLine, logLine, breakAtChar_append hts,
    decodeTelemetryObj_stringify t h1 h2 h3 h4, parseFloatJS_natDigits]

/-- The loop computes: previous results followed by the step-selected
matching lines, and the boundary tracking described by `firstOr`/`lastOr`. -/
theorem histLoop_spec (start : Option JSNum) (e step : JSNum) (ls : List Str) :
    ∀ (lastT : JSNum) (first last : Option Str) (acc : List Str),
      histLoop start e step ls lastT first last acc =
        (acc ++ stepSelect step lastT (matchingLines start e ls),
         firstOr first (matchingLines start e ls),
         lastOr last (matchingLines start e ls)) := by
  induction ls with
  | nil =>
    intro lastT first last acc
    cases first <;> simp [histLoop, matchingLines, stepSelect, firstOr, lastOr]
  | cons l ls ih =>
    intro lastT first last acc
    by_cases hk : lineKept start e l = true
    · have hml : matchingLines start e (l :: ls) = l :: matchingLines start e ls := by
        simp [matchingLines, List.filter_cons, hk]
      rw [hml]
      simp only [histLoop, if_pos hk]
      by_cases hs : jsGe (jsSub (timeOf l) lastT) step = true
      · rw [if_pos hs, ih]
        refine congrArg₂ _ ?_ (congrArg₂ _ ?_ ?_)
        · simp [stepSelect, hs]
        · cases first <;> simp [firstOr]
        · cases hms : matchingLines start e ls with
          | nil => simp [lastOr, hms]
          | cons m ms =>
            cases hgl : (m :: ms).getLast? with
            | none => simp [List.getLast?_eq_none_iff] at hgl
            | some x => simp [lastOr, hgl]
      · rw [if_neg hs, ih]
        refine congrArg₂ _ ?_ (congrArg₂ _ ?_ ?_)
        · simp [stepSelect, hs]
        · cases first <;> simp [firstOr]
        · cases hms : matchingLines start e ls with
          | nil => simp [lastOr, hms]
          | cons m ms =>
            cases hgl : (m :: ms).getLast? with
            | none => simp [List.getLast?_eq_none_iff] at hgl
            | some x => simp [lastOr, hgl]
    · have hml : matchingLines start e (l :: ls) = matchingLines start e ls := by
        simp [matchingLines, List.filter_cons, hk]
      rw [← hml] at ih
      simp only [histLoop, if_neg hk, ih, hml]

/-! ## Claim theorems -/

/-- C6 (counterexample): `start=Infinity` is supplied and is not a finite
number, yet the query succeeds (the code only checks `isNaN`, not
finiteness), contradicting the claimed "fails iff … not a finite number". -/
theorem history_infinity_start_accepted :
    historyHandler (fun _ => none) "d".data (some "Infinity".data) (some "5".data)
        (some "1".data) 0 = .ok "application/json" "[]".data ∧
    parseFloatJS "Infinity".data = .posInf := by
  constructor
  · with_unfolding_all decide
  · with_unfolding_all decide

/-- C6 (amended): a history query fails with a client error if and only if
the parsed `step` is NaN or `≤ 0`, or a supplied `start` parses to NaN, or
a supplied `end` parses to NaN (`isNaN` checks only: non-finite values such
as `Infinity` pass). -/
theorem history_validation_iff (fs : Str → Option Str) (domain : Str)
    (startP endP stepP : Option Str) (now : ℚ) :
    (∃ msg, historyHandler fs domain startP endP stepP now = .badRequest msg) ↔
      histValidationFail startP endP stepP now = true := by
  by_cases h1 : (match histStart startP with | some s => s.isNaNb | none => false) = true
  · simp [historyHandler, histValidationFail, h1]
  · by_cases h2 : (histEnd endP now).isNaNb = true
    · simp [historyHandler, histValidationFail, h1, h2]
    · by_cases h3 : ((histStep stepP).isNaNb || jsLe (histStep stepP) (.num 0)) = true
      · simp [historyHandler, histValidationFail, h1, h2, h3]
      · cases hf : fs (logFileName domain) with
        | none => simp [historyHandler, histValidationFail, h1, h2, h3, hf]
        | some content => simp [historyHandler, histValidationFail, h1, h2, h3, hf]

/-- C7 (counterexample): for a domain with no log file the handler answers
with the JSON text `[]` (two characters), not with an empty sequence of
lines (an empty body). -/
theorem history_missing_file_body :
    historyHandler (fun _ => none) "nonexistent".data none none none 0 =
      .ok "application/json" "[]".data ∧
    ("[]".data : Str) ≠ [] := by
  constructor
  · with_unfolding_all decide
  · decide

/-- C7 (amended): for a domain with no log file, a history query whose
parameters pass validation succeeds (it is not an error), answering the
JSON empty-array body `[]` rather than an empty line sequence. -/
theorem history_missing_file_spec (fs : Str → Option Str) (domain : Str)
    (startP endP stepP : Option Str) (now : ℚ)
    (hval : histValidationFail startP endP stepP now = false)
    (hfile : fs (logFileName domain) = none) :
    historyHandler fs domain startP endP stepP now = .ok "application/json" "[]".data := by
  unfold historyHandler
  unfold histValidationFail at hval
  simp only [Bool.or_eq_false_iff] at hval
  simp [hval.1.1, hval.1.2, hval.2.1, hval.2.2, hfile]

/-- C7 (witness). -/
theorem history_missing_file_spec_witness :
    histValidationFail none none none 0 = false ∧
    historyHandler (fun _ => none) "nonexistent".data none none none 0 =
      .ok "application/json" "[]".data :=
  ⟨by with_unfolding_all decide,
    history_missing_file_spec (fun _ => none) "nonexistent".data none none none 0
      (by with_unfolding_all decide) rfl⟩

/-- C5: a log line with a comma whose leading timestamp parses to NaN is
not skipped: NaN fails both range comparisons, so the line is tracked as
first/last matching line and appears in the output (here it is the whole
output), contradicting "skipped silently, never appears". -/
theorem history_malformed_line_in_output :
    historyHandler
        (fun f => if f = logFileName "d".data then some ("abc,def\n".data) else none)
        "d".data none (some "100".data) (some "60".data) 0 =
      .ok "text/plain" "abc,def".data ∧
    parseFloatJS "abc".data = .nan := by
  constructor
  · with_unfolding_all decide
  · with_unfolding_all decide

/-- C10: sanitization is not injective: any two domains with equal
sanitizations (such as the distinct `a.b` and `a_b`) resolve to the same
log file, and a history query under either name reads the same file, so
records posted under one appear in the other's results. -/
theorem normalize_collision_spec :
    (∀ d1 d2 : Str, normalizeFilenameComponent d1 = normalizeFilenameComponent d2 →
      logFileName d1 = logFileName d2) ∧
    (∀ d : Str, ¬ d = [] → domainOrDefault d = d) ∧
    (∀ (d1 d2 : Str) (fsRest : Str → Option Str) (content : Str)
        (startP endP stepP : Option Str) (now : ℚ),
      normalizeFilenameComponent d1 = normalizeFilenameComponent d2 →
      historyHandler (fun f => if f = logFileName d1 then some content else fsRest f)
          d2 startP endP stepP now =
        historyHandler (fun f => if f = logFileName d1 then some content else fsRest f)
          d1 startP endP stepP now) ∧
    (("a.b".data : Str) ≠ "a_b".data ∧
      normalizeFilenameComponent "a.b".data = normalizeFilenameComponent "a_b".data) := by
  have hfile : ∀ d1 d2 : Str, normalizeFilenameComponent d1 = normalizeFilenameComponent d2 →
      logFileName d1 = logFileName d2 := by
    intro d1 d2 h
    unfold logFileName
    rw [h]
  refine ⟨hfile, ?_, ?_, by decide, by decide⟩
  · intro d hd
    unfold domainOrDefault
    rw [if_neg hd]
  · intro d1 d2 fsRest content startP endP stepP now h
    unfold historyHandler
    rw [hfile d1 d2 h]

/-- C10 (witness): instantiated at the distinct names `a.b` and `a_b`. -/
theorem normalize_collision_spec_witness :
    normalizeFilenameComponent "a.b".data = normalizeFilenameComponent "a_b".data ∧
    logFileName "a.b".data = logFileName "a_b".data ∧
    historyHandler (fun f => if f = logFileName "a.b".data then some "1,x\n".data else none)
        "a_b".data none (some "1".data) (some "1".data) 0 =
      historyHandler (fun f => if f = logFileName "a.b".data then some "1,x\n".data else none)
        "a.b".data none (some "1".data) (some "1".data) 0 :=
  ⟨by decide,
    normalize_collision_spec.1 "a.b".data "a_b".data (by decide),
    normalize_collision_spec.2.2.1 "a.b".data "a_b".data (fun _ => none) "1,x\n".data
      none (some "1".data) (some "1".data) 0 (by decide)⟩

/-- C4 (counterexample): the current server stores a negative count
verbatim: after posting the well-formed object `{a: -1}`, the domains map
holds `-1` for `a`, contradicting "invalid entries are never stored". -/
theorem detections_invalid_stored :
    (detectionsCurrent ⟨[], [], [], 0⟩ (.obj [("a".data, .jnum (.num (-1)))])).1.domains =
      [("a".data, .jnum (.num (-1)))] ∧
    validCount (.jnum (.num (-1))) = false := by
  constructor
  · rfl
  · with_unfolding_all decide

/-- C4 (amended): both servers reject a body that is not a well-formed JSON
object with a client error and unchanged state.  The legacy server
validates per entry: the batch's valid entries are applied and negative or
non-numeric counts are skipped.  The current server replaces the map
wholesale with the posted object, without per-entry validation (invalid
entries are stored verbatim). -/
theorem detections_spec :
    (∀ (domains : List (Str × JEntryVal)),
      detectionsLegacy domains .notJson = (domains, .badRequest) ∧
      detectionsLegacy domains .nonObject = (domains, .badRequest)) ∧
    (∀ s : SrvState,
      detectionsCurrent s .notJson = (s, .badRequest) ∧
      detectionsCurrent s .nonObject = (s, .badRequest)) ∧
    (∀ (domains : List (Str × JEntryVal)) (entries : List (Str × JEntryVal)),
      detectionsLegacy domains (.obj entries) =
        ((entries.filter (fun p => validCount p.2)).foldl
          (fun m p => mapSet m p.1 p.2) domains, .ok)) ∧
    (∀ (s : SrvState) (entries : List (Str × JEntryVal)),
      (detectionsCurrent s (.obj entries)).1.domains = entries ∧
      (detectionsCurrent s (.obj entries)).2 = .ok) := by
  have hfold : ∀ (entries : List (Str × JEntryVal)) (domains : List (Str × JEntryVal)),
      entries.foldl (fun m p => if validCount p.2 then mapSet m p.1 p.2 else m) domains =
        (entries.filter (fun p => validCount p.2)).foldl
          (fun m p => mapSet m p.1 p.2) domains := by
    intro entries
    induction entries with
    | nil => intro d; rfl
    | cons p ps ih =>
      intro d
      by_cases hv : validCount p.2 = true
      · simp [List.filter_cons, hv, ih]
      · simp [List.filter_cons, hv, ih]
  refine ⟨fun _ => ⟨rfl, rfl⟩, fun _ => ⟨rfl, rfl⟩, ?_, fun _ _ => ⟨rfl, rfl⟩⟩
  intro domains entries
  show (entries.foldl (fun m p => if validCount p.2 then mapSet m p.1 p.2 else m) domains,
      DetResp.ok) = _
  rw [hfold]

/-- C8: a detections post (with a well-formed object body) leaves exactly
one pending timer, cancelling every previously pending one; when that
timeout fires with no further posts, both the domains map and the status
map are cleared and the status snapshot is empty. -/
theorem detections_timeout_eviction (s : SrvState) (entries : List (Str × JEntryVal))
    (hfresh : ∀ t ∈ s.timers, t < s.nextId) :
    ((detectionsCurrent s (.obj entries)).1.timers.length = 1 ∧
      (∀ t ∈ s.timers, t ∉ (detectionsCurrent s (.obj entries)).1.timers)) ∧
    (fireDetectionsTimeout (detectionsCurrent s (.obj entries)).1).domains = [] ∧
    (fireDetectionsTimeout (detectionsCurrent s (.obj entries)).1).status = [] ∧
    statusHandler (fireDetectionsTimeout (detectionsCurrent s (.obj entries)).1) = [] := by
  refine ⟨⟨rfl, ?_⟩, rfl, rfl, rfl⟩
  intro t ht
  simp only [detectionsCurrent, resetDetectionsTimeout, List.mem_singleton]
  have := hfresh t ht
  omega

/-- C8 (witness). -/
theorem detections_timeout_eviction_witness :
    (∀ t ∈ ([] : List ℕ), t < 0) ∧
    statusHandler (fireDetectionsTimeout
      (detectionsCurrent ⟨[], [], [], 0⟩ (.obj [("a".data, .jnum (.num 1))])).1) = [] :=
  ⟨by simp,
    (detections_timeout_eviction ⟨[], [], [], 0⟩ [("a".data, .jnum (.num 1))]
      (by simp)).2.2.2⟩

/-- C9 (counterexample): a 13-byte payload — not the fixed 12 bytes — with
binary content type is accepted (the code checks `length >= 12`), not
rejected. -/
theorem unit_oversized_accepted :
    (unitHandler [] [] 0
      ⟨"d".data, "application/octet-stream".data, true, List.replicate 13 0⟩).resp ≠
      .badRequest ∧
    (List.replicate 13 (0 : ℕ)).length ≠ 12 := by
  constructor
  · with_unfolding_all decide
  · decide

/-- C9 (amended): a telemetry post is rejected with a client error exactly
when the content type does not include `application/octet-stream`, the body
is not a binary buffer, or the body is shorter than 12 bytes (longer bodies
are accepted, the extra bytes ignored).  An accepted post parses the three
little-endian IEEE-754 binary32 floats at offsets 0, 4, 8 as
`[temperature, humidity, fan_rpm]` and responds with the 4-byte
little-endian binary32 encoding of the actuation value. -/
theorem unit_payload_spec (domains : List (Str × JEntryVal))
    (status : List (Str × StatusRec)) (ts : ℕ) (req : UnitReq) :
    (¬ (containsSub "application/octet-stream".data req.contentType = true ∧
        req.isBuffer = true ∧ 12 ≤ req.body.length) →
      unitHandler domains status ts req = ⟨.badRequest, status, none⟩) ∧
    ((containsSub "application/octet-stream".data req.contentType = true ∧
        req.isBuffer = true ∧ 12 ≤ req.body.length) →
      ∀ pop, (match lookupA domains (domainOrDefault req.domain) with
              | some (.jnum x) => x
              | some .jother => JSNum.nan
              | none => JSNum.nan) = pop →
        unitHandler domains status ts req =
          ⟨.okBytes (encodeF32 (populationToFanPower pop)),
            mapSet status (domainOrDefault req.domain)
              { population := .jnum pop,
                fan_power := some (populationToFanPower pop),
                temperature := some (bytesToF32 req.body 0),
                humidity := some (bytesToF32 req.body 4),
                fan_rpm := some (bytesToF32 req.body 8) },
            some (logFileName (domainOrDefault req.domain),
              logLine ts ⟨bytesToF32 req.body 0, bytesToF32 req.body 4,
                bytesToF32 req.body 8, pop⟩)⟩ ∧
        (encodeF32 (populationToFanPower pop)).length = 4) := by
  constructor
  · intro h
    unfold unitHandler
    rw [if_neg h]
  · intro h pop hpop
    refine ⟨?_, encodeF32_length _⟩
    unfold unitHandler
    rw [if_pos h, hpop]

/-- C9 (witness): a 12-byte all-zero payload with binary content type. -/
theorem unit_payload_spec_witness :
    (containsSub "application/octet-stream".data "application/octet-stream".data = true ∧
      (true : Bool) = true ∧ 12 ≤ (List.replicate 12 (0 : ℕ)).length) ∧
    (unitHandler [] [] 0
        ⟨"d".data, "application/octet-stream".data, true, List.replicate 12 0⟩).resp =
      .okBytes (encodeF32 (populationToFanPower .nan)) ∧
    (encodeF32 (populationToFanPower .nan)).length = 4 := by
  have h := (unit_payload_spec [] [] 0
      ⟨"d".data, "application/octet-stream".data, true, List.replicate 12 0⟩).2
      ⟨by decide, rfl, by decide⟩ .nan rfl
  exact ⟨⟨by decide, rfl, by decide⟩, congrArg UnitOut.resp h.1, h.2⟩

/-- C1: when at least one line matches, the output is exactly the first
matching line, then the step-selected lines that duplicate neither
boundary, then the last matching line when distinct — so first and last
matching lines are always present regardless of step. -/
theorem history_first_last_spec
    (fs : Str → Option Str) (domain : Str) (startP endP stepP : Option Str) (now : ℚ)
    (content : Str) (f l : Str) (ms : List Str)
    (hval : histValidationFail startP endP stepP now = false)
    (hfile : fs (logFileName domain) = some content)
    (hms : matchingLines (histStart startP) (histEnd endP now)
      (splitOnChar '\n' (trimChars content)) = ms)
    (hf : ms.head? = some f) (hl : ms.getLast? = some l) :
    ∃ out : List Str,
      historyHandler fs domain startP endP stepP now =
        .ok "text/plain" (intercalChar '\n' out) ∧
      out = f :: ((stepSelect (histStep stepP) .negInf ms).filter
          (fun x => decide (¬ x = f) && decide (¬ x = l)) ++
        (if f = l then [] else [l])) ∧
      f ∈ out ∧ l ∈ out := by
  have hval2 := hval
  unfold histValidationFail at hval2
  simp only [Bool.or_eq_false_iff] at hval2
  have hlines : historyHandler fs domain startP endP stepP now =
      .ok "text/plain" (intercalChar '\n' (historyLines (histStart startP)
        (histEnd endP now) (histStep stepP) (splitOnChar '\n' (trimChars content)))) := by
    unfold historyHandler
    simp [hval2.1.1, hval2.1.2, hval2.2.1, hval2.2.2, hfile]
  have hpred : ∀ x ∈ stepSelect (histStep stepP) JSNum.negInf ms,
      (decide (¬ (some f : Option Str) = some x) &&
        decide (¬ (some l : Option Str) = some x)) =
        (decide (¬ x = f) && decide (¬ x = l)) := by
    intro x _
    have h1 : (¬ (some f : Option Str) = some x) ↔ (¬ x = f) := by
      constructor
      · intro h hx
        exact h (by rw [hx])
      · intro h hx
        exact h (Option.some.inj hx).symm
    have h2 : (¬ (some l : Option Str) = some x) ↔ (¬ x = l) := by
      constructor
      · intro h hx
        exact h (by rw [hx])
      · intro h hx
        exact h (Option.some.inj hx).symm
    rw [decide_eq_decide.mpr h1, decide_eq_decide.mpr h2]
  have hassemble : historyLines (histStart startP) (histEnd endP now) (histStep stepP)
      (splitOnChar '\n' (trimChars content)) =
      f :: ((stepSelect (histStep stepP) .negInf ms).filter
          (fun x => decide (¬ x = f) && decide (¬ x = l)) ++
        (if f = l then [] else [l])) := by
    unfold historyLines
    rw [histLoop_spec, hms]
    unfold assembleHist
    simp only [List.nil_append, firstOr, lastOr, hf, hl]
    rw [List.filter_congr hpred]
    by_cases hfl : f = l <;> simp [hfl]
  refine ⟨_, hlines.trans (by rw [hassemble]), rfl, List.mem_cons_self _ _, ?_⟩
  by_cases hfl : f = l
  · subst hfl
    exact List.mem_cons_self _ _
  · simp [hfl]

/-- C1 (witness): log entries at seconds 0, 10, 20, 30, 40 with `step=25`,
`start=0`, `end=40` produce exactly the lines at 0, 30 and 40. -/
theorem history_first_last_spec_witness :
    (histValidationFail (some "0".data) (some "40".data) (some "25".data) 0 = false ∧
      matchingLines (histStart (some "0".data)) (histEnd (some "40".data) 0)
        (splitOnChar '\n'
          (trimChars "0,a\n10000,b\n20000,c\n30000,d\n40000,e\n".data)) =
        ["0,a".data, "10000,b".data, "20000,c".data, "30000,d".data, "40000,e".data]) ∧
    historyHandler
        (fun fnm => if fnm = logFileName "x".data
          then some "0,a\n10000,b\n20000,c\n30000,d\n40000,e\n".data else none)
        "x".data (some "0".data) (some "40".data) (some "25".data) 0 =
      .ok "text/plain" "0,a\n30000,d\n40000,e".data := by
  have hval : histValidationFail (some "0".data) (some "40".data) (some "25".data) 0 =
      false := by
    with_unfolding_all decide
  have hms : matchingLines (histStart (some "0".data)) (histEnd (some "40".data) 0)
      (splitOnChar '\n' (trimChars "0,a\n10000,b\n20000,c\n30000,d\n40000,e\n".data)) =
      ["0,a".data, "10000,b".data, "20000,c".data, "30000,d".data, "40000,e".data] := by
    with_unfolding_all decide
  obtain ⟨out, h1, h2, _, _⟩ := history_first_last_spec
    (fun fnm => if fnm = logFileName "x".data
      then some "0,a\n10000,b\n20000,c\n30000,d\n40000,e\n".data else none)
    "x".data (some "0".data) (some "40".data) (some "25".data) 0
    "0,a\n10000,b\n20000,c\n30000,d\n40000,e\n".data
    "0,a".data "40000,e".data
    ["0,a".data, "10000,b".data, "20000,c".data, "30000,d".data, "40000,e".data]
    hval (by decide) hms (by decide) (by decide)
  refine ⟨⟨hval, hms⟩, ?_⟩
  rw [h1, h2]
  with_unfolding_all decide

/-! ### Single-line log facts for the round trip -/

theorem splitOnChar_ne_nil (sep : Char) (s : Str) : splitOnChar sep s ≠ [] := by
  cases s with
  | nil => simp [splitOnChar]
  | cons c cs =>
    simp only [splitOnChar]
    split
    · simp
    · cases h : splitOnChar sep cs <;> simp

theorem splitOnChar_append (sep : Char) {a : Str} (ha : ∀ c ∈ a, ¬ c = sep) (b : Str) :
    splitOnChar sep (a ++ sep :: b) = a :: splitOnChar sep b := by
  induction a with
  | nil => simp [splitOnChar]
  | cons c cs ih =>
    have hc := ha c (by simp)
    have ih2 := ih (fun x hx => ha x (by simp [hx]))
    have ih3 : splitOnChar sep (cs.append (sep :: b)) = cs :: splitOnChar sep b := ih2
    simp only [List.cons_append, splitOnChar, hc, if_false, ih2, ih3]

theorem splitOnChar_no_sep {sep : Char} {s : Str} (h : ∀ c ∈ s, ¬ c = sep) :
    splitOnChar sep s = [s] := by
  induction s with
  | nil => rfl
  | cons c cs ih =>
    have hc := h c (by simp)
    have ih2 := ih (fun x hx => h x (by simp [hx]))
    simp only [splitOnChar, hc, if_false, ih2]

theorem stringifyTelemetry_no_newline (t : Telemetry) :
    ∀ c ∈ stringifyTelemetry t, ¬ c = '\n' := by
  intro c hc
  unfold stringifyTelemetry at hc
  simp only [List.mem_append] at hc
  rcases hc with ((((((((h | h) | h) | h) | h) | h) | h) | h) | h)
  · exact (by decide : ∀ x ∈ ("\x7b\"temperature\":".data : Str), ¬ x = '\n') c h
  · exact (jsonNumStr_no_special _ c h).2.2
  · exact (by decide : ∀ x ∈ (",\"humidity\":".data : Str), ¬ x = '\n') c h
  · exact (jsonNumStr_no_special _ c h).2.2
  · exact (by decide : ∀ x ∈ (",\"fan_rpm\":".data : Str), ¬ x = '\n') c h
  · exact (jsonNumStr_no_special _ c h).2.2
  · exact (by decide : ∀ x ∈ (",\"population\":".data : Str), ¬ x = '\n') c h
  · exact (jsonNumStr_no_special _ c h).2.2
  · exact (by decide : ∀ x ∈ ("\x7d".data : Str), ¬ x = '\n') c h

theorem logLine_no_newline (ts : ℕ) (t : Telemetry) :
    ∀ c ∈ logLine ts t, ¬ c = '\n' := by
  intro c hc
  unfold logLine at hc
  rcases List.mem_append.1 hc with h | h
  · exact (isDigit_ne (natDigits_isDigit ts c h)).2.2.2.2.2.2.2.1
  · rcases List.mem_cons.1 h with h1 | h2
    · subst h1; decide
    · exact stringifyTelemetry_no_newline t c h2

theorem logLine_head_digit (ts : ℕ) (t : Telemetry) :
    ∃ c cs, logLine ts t = c :: cs ∧ c.isDigit = true := by
  unfold logLine
  cases hnd : natDigits ts with
  | nil => exact absurd hnd (natDigits_ne_nil ts)
  | cons c cs =>
    exact ⟨c, cs ++ ',' :: stringifyTelemetry t, rfl,
      natDigits_isDigit ts c (by rw [hnd]; simp)⟩

theorem logLine_getLast (ts : ℕ) (t : Telemetry) :
    (logLine ts t).getLast? = some '\x7d' := by
  have h1 : logLine ts t =
      (natDigits ts ++ ',' :: ("\x7b\"temperature\":".data ++ jsonNumStr t.temperature ++
        ",\"humidity\":".data ++ jsonNumStr t.humidity ++ ",\"fan_rpm\":".data ++
        jsonNumStr t.fan_rpm ++ ",\"population\":".data ++ jsonNumStr t.population)) ++
      "\x7d".data := by
    simp [logLine, stringifyTelemetry]
  rw [h1, List.getLast?_append_of_ne_nil _ (by decide)]
  decide

theorem trim_logLine_newline (ts : ℕ) (t : Telemetry) :
    trimChars (logLine ts t ++ ['\n']) = logLine ts t := by
  obtain ⟨c, cs, hcons, hdig⟩ := logLine_head_digit ts t
  have hlast := logLine_getLast ts t
  have hwc : isWS c = false := (isDigit_ne hdig).2.2.2.2.2.2.2.2.2
  unfold trimChars
  have h1 : List.dropWhile (fun x => isWS x) (logLine ts t ++ ['\n']) =
      logLine ts t ++ ['\n'] := by
    rw [hcons, List.cons_append, List.dropWhile_cons]
    simp [hwc]
  rw [h1]
  have h2 : (logLine ts t ++ ['\n']).reverse = '\n' :: (logLine ts t).reverse := by
    rw [List.reverse_append]
    rfl
  rw [h2, List.dropWhile_cons]
  simp only [show isWS '\n' = true from rfl, if_true]
  cases hrev : (logLine ts t).reverse with
  | nil =>
    rw [hcons] at hrev
    simp at hrev
  | cons d ds =>
    have hd : d = '\x7d' := by
      have hh := List.head?_reverse (logLine ts t)
      rw [hrev, hlast] at hh
      exact Option.some.inj hh
    rw [List.dropWhile_cons]
    subst hd
    simp only [show isWS '\x7d' = false from rfl, Bool.false_eq_true, if_false]
    rw [← hrev, List.reverse_reverse]

theorem timeOf_logLine (ts : ℕ) (t : Telemetry) :
    timeOf (logLine ts t) = .num ((ts : ℚ) / 1000) := by
  have hcomma : ∀ c ∈ natDigits ts, ¬ c = ',' :=
    fun c hc => (isDigit_ne (natDigits_isDigit ts c hc)).2.2.2.2.2.2.1
  unfold timeOf logLine
  rw [splitOnChar_append ',' hcomma]
  simp only [List.headD_cons]
  rw [parseFloatJS_natDigits]
  rfl

/-- A freshly appended log line passes the range checks whenever its time
lies inside `[s, e]`, and then the single-line query returns exactly it. -/
theorem historyHandler_single_line (fsr : Str → Option Str) (domain : Str)
    (startS endS stepS : Str) (now s e stp : ℚ) (ts : ℕ) (t : Telemetry)
    (hs : parseFloatJS startS = .num s) (he : parseFloatJS endS = .num e)
    (hstp : parseFloatJS stepS = .num stp)
    (hsne : ¬ startS = []) (hene : ¬ endS = []) (hstpne : ¬ stepS = [])
    (hstppos : 0 < stp)
    (hrange1 : s ≤ (ts : ℚ) / 1000) (hrange2 : (ts : ℚ) / 1000 ≤ e)
    (hfs : fsr (logFileName domain) = some (logLine ts t ++ ['\n'])) :
    historyHandler fsr domain (some startS) (some endS) (some stepS) now =
      .ok "text/plain" (logLine ts t) := by
  have hstart : histStart (some startS) = some (.num s) := by
    simp [histStart, qparam, hsne, hs]
  have hend : histEnd (some endS) now = .num e := by
    simp [histEnd, qparam, hene, he]
  have hstep : histStep (some stepS) = .num stp := by
    simp [histStep, qparam, hstpne, hstp]
  have hstep0 : jsLe (.num stp) (.num 0) = false := by
    simp only [jsLe]
    exact decide_eq_false (not_le.mpr hstppos)
  have hkept : lineKept (some (.num s)) (.num e) (logLine ts t) = true := by
    obtain ⟨c, cs, hcons, _⟩ := logLine_head_digit ts t
    have hne : ¬ logLine ts t = [] := by rw [hcons]; simp
    have hcomma : ∀ c ∈ natDigits ts, ¬ c = ',' :=
      fun c hc => (isDigit_ne (natDigits_isDigit ts c hc)).2.2.2.2.2.2.1
    have hlen : 2 ≤ (splitOnChar ',' (logLine ts t)).length := by
      unfold logLine
      rw [splitOnChar_append ',' hcomma]
      have := splitOnChar_ne_nil ',' (stringifyTelemetry t)
      cases hsp : splitOnChar ',' (stringifyTelemetry t) with
      | nil => exact absurd hsp this
      | cons x xs => simp
    have hlt1 : startLtB (some (.num s)) (timeOf (logLine ts t)) = false := by
      rw [timeOf_logLine]
      simp only [startLtB, jsLt]
      exact decide_eq_false (not_lt.mpr hrange1)
    have hgt : jsGt (timeOf (logLine ts t)) (.num e) = false := by
      rw [timeOf_logLine]
      simp only [jsGt, jsLt]
      exact decide_eq_false (not_lt.mpr hrange2)
    unfold lineKept
    rw [if_neg (by exact fun hh => hne hh), if_pos hlen, hlt1, hgt]
    simp
  have hml : matchingLines (some (.num s)) (.num e) [logLine ts t] = [logLine ts t] := by
    simp [matchingLines, hkept]
  unfold historyHandler
  rw [hstart, hend, hstep, hfs]
  simp only [JSNum.isNaNb, Bool.false_eq_true, if_false, hstep0, Bool.or_false]
  rw [trim_logLine_newline, splitOnChar_no_sep (logLine_no_newline ts t)]
  unfold historyLines
  rw [histLoop_spec, hml]
  have hsel : stepSelect (.num stp) .negInf [logLine ts t] = [logLine ts t] := by
    simp only [stepSelect, timeOf_logLine]
    rw [show jsSub (.num ((ts : ℚ) / 1000)) .negInf = .posInf from rfl]
    rw [show jsGe .posInf (.num stp) = true from rfl]
    simp
  rw [hsel]
  unfold assembleHist firstOr lastOr
  simp
  rfl

/-- C3 (amended): a telemetry post on an empty log followed immediately by
a history query whose range covers the post's timestamp returns exactly the
posted line, and the line's JSON decodes to the recorded temperature,
humidity and fan_rpm, and to the recorded population when the population at
post time was a finite number.  (A NaN population — domain absent from the
PopulationMap — serializes to JSON `null` and decodes to `null`, not NaN:
see the counterexample.) -/
theorem telemetry_roundtrip_spec
    (domains : List (Str × JEntryVal)) (status0 : List (Str × StatusRec)) (ts : ℕ)
    (req : UnitReq) (now : ℚ) (startS endS stepS : Str) (s e stp t h r p : ℚ)
    (hct : containsSub "application/octet-stream".data req.contentType = true)
    (hbuf : req.isBuffer = true) (hlen : 12 ≤ req.body.length)
    (ht : bytesToF32 req.body 0 = .num t)
    (hh : bytesToF32 req.body 4 = .num h)
    (hr : bytesToF32 req.body 8 = .num r)
    (hp : (match lookupA domains (domainOrDefault req.domain) with
           | some (.jnum x) => x
           | some .jother => JSNum.nan
           | none => JSNum.nan) = .num p)
    (hpden : p.den ∣ 10 ^ p.den)
    (hs : parseFloatJS startS = .num s) (he : parseFloatJS endS = .num e)
    (hstp : parseFloatJS stepS = .num stp)
    (hsne : ¬ startS = []) (hene : ¬ endS = []) (hstpne : ¬ stepS = [])
    (hstppos : 0 < stp)
    (hrange1 : s ≤ (ts : ℚ) / 1000) (hrange2 : (ts : ℚ) / 1000 ≤ e) :
    (unitHandler domains status0 ts req).logged =
      some (logFileName (domainOrDefault req.domain),
        logLine ts ⟨.num t, .num h, .num r, .num p⟩) ∧
    historyHandler
        (fun f => if f = logFileName (domainOrDefault req.domain)
          then some (logLine ts ⟨.num t, .num h, .num r, .num p⟩ ++ ['\n']) else none)
        (domainOrDefault req.domain) (some startS) (some endS) (some stepS) now =
      .ok "text/plain" (logLine ts ⟨.num t, .num h, .num r, .num p⟩) ∧
    decodeHistLine (logLine ts ⟨.num t, .num h, .num r, .num p⟩) =
      some (.num ts, (.vnum t, .vnum h, .vnum r, .vnum p)) := by
  have hrepF : ∀ (off : ℕ) (v : ℚ), bytesToF32 req.body off = .num v → repOK (.num v) := by
    intro off v hv
    have hd := decodeF32_repOK (req.body.getD off 0) (req.body.getD (off + 1) 0)
      (req.body.getD (off + 2) 0) (req.body.getD (off + 3) 0)
    rw [show decodeF32 (req.body.getD off 0) (req.body.getD (off + 1) 0)
      (req.body.getD (off + 2) 0) (req.body.getD (off + 3) 0) = bytesToF32 req.body off
      from rfl, hv] at hd
    exact hd
  refine ⟨?_, ?_, ?_⟩
  · unfold unitHandler
    rw [if_pos ⟨hct, hbuf, hlen⟩]
    simp only [ht, hh, hr, hp]
  · exact historyHandler_single_line _ _ startS endS stepS now s e stp ts _
      hs he hstp hsne hene hstpne hstppos hrange1 hrange2 (by simp)
  · have h1 := hrepF 0 t ht
    have h2 := hrepF 4 h hh
    have h3 := hrepF 8 r hr
    have h4 : repOK (JSNum.num p) := hpden
    have hd := decodeHistLine_logLine ts ⟨.num t, .num h, .num r, .num p⟩ h1 h2 h3 h4
    simpa [jvalOfNum] using hd

set_option maxRecDepth 100000 in
/-- C3 (counterexample): with an empty PopulationMap the recorded
population is NaN; the logged line serializes it as JSON `null`, so the
line does not decode to the recorded NaN population — `null` is not a
number. -/
theorem telemetry_nan_population_null :
    (unitHandler [] [] 0
        ⟨"d".data, "application/octet-stream".data, true, List.replicate 12 0⟩).logged =
      some (logFileName "d".data, logLine 0 ⟨.num 0, .num 0, .num 0, .nan⟩) ∧
    decodeHistLine (logLine 0 ⟨.num 0, .num 0, .num 0, .nan⟩) =
      some (.num 0, (.vnum 0, .vnum 0, .vnum 0, .vnull)) ∧
    (∀ q : ℚ, (JVal.vnull : JVal) ≠ .vnum q) := by
  refine ⟨?_, ?_, fun q hq => JVal.noConfusion hq⟩
  · with_unfolding_all decide
  · have hrep0 : repOK (JSNum.num 0) := by
      show (0 : ℚ).den ∣ 10 ^ (0 : ℚ).den
      with_unfolding_all decide
    have hd := decodeHistLine_logLine 0 ⟨.num 0, .num 0, .num 0, .nan⟩
      hrep0 hrep0 hrep0 trivial
    simpa [jvalOfNum] using hd

set_option maxRecDepth 100000 in
set_option maxHeartbeats 1000000 in
/-- C3 (witness): population 1 present in the map, payload
`[1.0, 0.5, 3.0]`, timestamp 1000 ms, query `[0, 2]` with step 1. -/
theorem telemetry_roundtrip_spec_witness :
    (0 : ℚ) < 1 ∧ (0 : ℚ) ≤ ((1000 : ℕ) : ℚ) / 1000 ∧ ((1000 : ℕ) : ℚ) / 1000 ≤ 2 ∧
    decodeHistLine (logLine 1000 ⟨.num 1, .num (1 / 2), .num 3, .num 1⟩) =
      some (.num (1000 : ℕ), (.vnum 1, .vnum (1 / 2), .vnum 3, .vnum 1)) := by
  have hmain := telemetry_roundtrip_spec [("d".data, .jnum (.num 1))] [] 1000
    ⟨"d".data, "application/octet-stream".data, true,
      [0, 0, 128, 63, 0, 0, 0, 63, 0, 0, 64, 64]⟩
    0 "0".data "2".data "1".data 0 2 1 1 (1 / 2) 3 1
    (by decide) rfl (by decide)
    (by with_unfolding_all decide) (by with_unfolding_all decide)
    (by with_unfolding_all decide) (by with_unfolding_all decide)
    (by with_unfolding_all decide)
    (by with_unfolding_all decide) (by with_unfolding_all decide)
    (by with_unfolding_all decide)
    (by decide) (by decide) (by decide)
    (by decide)
    (by with_unfolding_all decide) (by with_unfolding_all decide)
  exact ⟨by decide, by with_unfolding_all decide, by with_unfolding_all decide,
    hmain.2.2⟩
end SmartAC

